import Mathlib

/-!
Verification of the Insight-to-Task Synthesis Engine of BizVistaAI.

The engine lives in the dashboard page module: theme classification
(inferTheme / THEME_KEYWORDS), impact and effort estimation
(calculateImpact / calculateEffort), fuzzy deduplication
(deduplicateBullets), task generation and reconciliation against saved
tasks (the synthesis effect), and the lifecycle operations (cycleStatus,
updateProgress).

Strings are modelled as lists of Unicode code points (`List Nat`), which
matches the per-character operations the source performs (toLowerCase,
includes, substring, startsWith) on its ASCII inputs.  JavaScript numbers
that the engine uses as integers (progress, deltas) are modelled as `Int`;
sentiment scores and deltas are modelled as `Rat`.
-/

namespace BizVista

/-- A string, as the sequence of its character code points. -/
abbrev Str := List Nat

/-- Code points of a Lean string literal, used to write concrete inputs. -/
def chars (s : String) : Str := s.toList.map Char.toNat

/-- ASCII lower-casing of one code point, modelling what
String.prototype.toLowerCase and the regex i flag do on the ASCII
inputs this engine handles (65..90 are A..Z, +32 maps to a..z). -/
def lowerCode (c : Nat) : Nat := if 65 ≤ c ∧ c ≤ 90 then c + 32 else c

/-- Model of String.prototype.toLowerCase. -/
def strLower (s : Str) : Str := s.map lowerCode

/-- Whether the first string is a prefix of the second (exact code points). -/
def isPfx : Str → Str → Bool
  | [], _ => true
  | _ :: _, [] => false
  | a :: as, b :: bs => a = b && isPfx as bs

/-- Whether the first string occurs contiguously anywhere inside the
second, modelling String.prototype.includes. -/
def isSubstr (needle : Str) : Str → Bool
  | [] => isPfx needle []
  | b :: bs => isPfx needle (b :: bs) || isSubstr needle bs

/-- Impact / effort levels, the "High" | "Med" | "Low" union of the source. -/
inductive Level where
  | High
  | Med
  | Low
deriving DecidableEq, Repr

/-- Task status, the "Backlog" | "In Progress" | "In Review" | "Done"
union of the source. -/
inductive Status where
  | Backlog
  | InProgress
  | InReview
  | Done
deriving DecidableEq, Repr

/-- The Task record of the source.  `created_at` and `due_at` are the two
optional fields of the TypeScript type. -/
structure Task where
  id : String
  title : Str
  theme : String
  impact : Level
  effort : Level
  status : Status
  progress : Int
  created_at : Option String
  due_at : Option String
deriving DecidableEq, Repr

/-- THEME_KEYWORDS of the source, in its exact (insertion) order; the
iteration order of Object.entries over this record. -/
def THEME_KEYWORDS : List (String × List Str) :=
  [ ("Service",
      [chars "server", chars "staff", chars "rude", chars "polite",
       chars "attentive", chars "friendly", chars "service", chars "waiter"]),
    ("Speed/Wait Time",
      [chars "wait", chars "slow", chars "queue", chars "delay",
       chars "quick", chars "fast", chars "timely"]),
    ("Ambiance",
      [chars "decor", chars "music", chars "noise", chars "lighting",
       chars "vibe", chars "atmosphere", chars "ambiance"]),
    ("Food Quality",
      [chars "taste", chars "flavor", chars "fresh", chars "stale",
       chars "cold", chars "delicious", chars "quality"]),
    ("Cleanliness",
      [chars "clean", chars "hygiene", chars "dirty", chars "sticky",
       chars "maintenance"]),
    ("Portion Size",
      [chars "portion", chars "small", chars "big", chars "quantity",
       chars "size"]),
    ("Price/Value",
      [chars "price", chars "expensive", chars "overpriced", chars "value",
       chars "affordable", chars "worth"]),
    ("Staff Behavior",
      [chars "behavior", chars "attitude", chars "manager", chars "host"]) ]

/-- Loop body of inferTheme: walk the entries in order, return the first
theme one of whose keywords occurs in the (already lowered) title. -/
def inferThemeGo : List (String × List Str) → Str → String
  | [], _ => "Service"
  | (theme, kws) :: rest, lowerTitle =>
      if kws.any (fun kw => isSubstr kw lowerTitle) then theme
      else inferThemeGo rest lowerTitle

/-- inferTheme of the source: first keyword-matching theme of
THEME_KEYWORDS against the lowercased title, falling back to "Service". -/
def inferTheme (title : Str) : String := inferThemeGo THEME_KEYWORDS (strLower title)

/-- calculateImpact of the source.  The three parameters are all optional
in the source (themeScore?, delta?, source?); a test on an absent value
is false, exactly as `x !== undefined && p x` is. -/
def calculateImpact (themeScore delta : Option Rat) (source : Option String) : Level :=
  if source = some "improve" then Level.High
  else if (match themeScore with
           | some ts => decide (ts < 6 / 10)
           | none => false) then Level.High
  else if (match delta with
           | some d => decide (d < -(4 / 100))
           | none => false) then Level.High
  else if (match delta with
           | some d => decide (-(4 / 100) ≤ d ∧ d < 0)
           | none => false) then Level.Med
  else if (match themeScore with
           | some ts => decide (6 / 10 ≤ ts ∧ ts < 7 / 10)
           | none => false) then Level.Med
  else Level.Low

/-- calculateEffort of the source (the source tests "hire" twice; the
duplicate test is kept, it is harmless). -/
def calculateEffort (title : Str) : Level :=
  let lt := strLower title
  if isSubstr (chars "hire") lt || isSubstr (chars "train") lt ||
     isSubstr (chars "scheduling") lt || isSubstr (chars "hire") lt then Level.High
  else if isSubstr (chars "label") lt || isSubstr (chars "sign") lt ||
     isSubstr (chars "menu note") lt || isSubstr (chars "seating zone") lt then Level.Low
  else Level.Med

example : inferTheme (chars "wait clean") = "Speed/Wait Time" := by decide
example : inferTheme (chars "") = "Service" := by decide
example : calculateImpact none none none = Level.Low := by decide
example : calculateImpact none none (some "improve") = Level.High := by decide
example : calculateEffort (chars "lower prices") = Level.Med := by decide

/-- The imperative rewrite of an improvement string in the synthesis
effect: kept verbatim when it starts with "Improve", else prefixed with
"Improve " and lower-cased. -/
def imperative (improve : Str) : Str :=
  if isPfx (chars "Improve") improve then improve
  else chars "Improve " ++ strLower improve

/-- The synthetic id "gen-" ++ n assigned by the taskId counter. -/
def genId (n : Nat) : String := "gen-" ++ toString n

/-- One candidate task as pushed by the synthesis effect: fresh id from
the counter, classified theme and effort from the title, Backlog status,
zero progress, created_at set to synthesis time, no due date. -/
def mkCandidate (now : String) (n : Nat) (title : Str) (impact : Level) : Task :=
  { id := genId n, title := title, theme := inferTheme title, impact := impact,
    effort := calculateEffort title, status := Status.Backlog, progress := 0,
    created_at := some now, due_at := none }

/-- The recommendations loop of the synthesis effect: each capped
recommendation string becomes a candidate verbatim, with
calculateImpact() — all three arguments absent.  `n` is the running
taskId counter. -/
def genRecTasks (now : String) : Nat → List Str → List Task
  | _, [] => []
  | n, r :: rs =>
      mkCandidate now n r (calculateImpact none none none) :: genRecTasks now (n + 1) rs

/-- The improvements loop of the synthesis effect: each capped
improvement string is rewritten to imperative form and becomes a
candidate with calculateImpact(undefined, undefined, "improve"). -/
def genImpTasks (now : String) : Nat → List Str → List Task
  | _, [] => []
  | n, s :: ss =>
      mkCandidate now n (imperative s) (calculateImpact none none (some "improve")) ::
        genImpTasks now (n + 1) ss

/-- The `generated` array of the synthesis effect: at most the first 3
recommendations, then at most the first 3 improvements, ids numbered
consecutively from 1. -/
def generatedTasks (now : String) (recs imps : List Str) : List Task :=
  genRecTasks now 1 (recs.take 3) ++
    genImpTasks now (1 + (recs.take 3).length) (imps.take 3)

/-- The reconciliation of one candidate with a saved task, embedding the
object spread `\x7b ...genTask, ...savedTask, id: savedTask.id \x7d`:
every field present on the saved record overrides the candidate's, and
the two optional fields fall back to the candidate's value when absent
on the saved record. -/
def mergeTask (gen saved : Task) : Task :=
  { id := saved.id, title := saved.title, theme := saved.theme,
    impact := saved.impact, effort := saved.effort, status := saved.status,
    progress := saved.progress,
    created_at := match saved.created_at with
                  | some c => some c
                  | none => gen.created_at,
    due_at := match saved.due_at with
              | some d => some d
              | none => gen.due_at }

/-- The synthesis effect: generate candidates from the capped insight
lists, then map each candidate to the first saved task with an identical
title (merged by mergeTask) or to itself when no title matches. -/
def synthesize (now : String) (recs imps : List Str) (savedTasks : List Task) :
    List Task :=
  (generatedTasks now recs imps).map (fun g =>
    match savedTasks.find? (fun st => st.title = g.title) with
    | some st => mergeTask g st
    | none => g)

/-- The `statuses` array of cycleStatus, in source order. -/
def statuses : List Status := [Status.Backlog, Status.InProgress, Status.InReview, Status.Done]

/-- Array.prototype.indexOf over the statuses list.  Every Status value
occurs in `statuses`, so the JavaScript not-found result (-1) is
unreachable; on the empty list this model returns 0. -/
def statusIdx (s : Status) : List Status → Nat
  | [] => 0
  | x :: xs => if x = s then 0 else statusIdx s xs + 1

/-- The callback of cycleStatus: a task whose id matches moves to
statuses[(indexOf(status) + 1) % 4]; any other task is returned
untouched.  The getD default is unreachable since (i + 1) % 4 < 4. -/
def cycStep (taskId : String) (t : Task) : Task :=
  if t.id = taskId then
    { t with status := statuses.getD ((statusIdx t.status statuses + 1) % 4) Status.Backlog }
  else t

/-- cycleStatus of the source: map the status-advancing callback over
the task list. -/
def cycleStatus (taskId : String) (tasks : List Task) : List Task :=
  tasks.map (cycStep taskId)

/-- The callback of updateProgress: a task whose id matches gets
progress := Math.max(0, Math.min(100, progress + delta)); any other
task is returned untouched. -/
def updStep (taskId : String) (delta : Int) (t : Task) : Task :=
  if t.id = taskId then { t with progress := max 0 (min 100 (t.progress + delta)) }
  else t

/-- updateProgress of the source: map the progress-adjusting callback
over the task list. -/
def updateProgress (taskId : String) (delta : Int) (tasks : List Task) : List Task :=
  tasks.map (updStep taskId delta)

/-- Code points that carry special meaning in JavaScript regular
expression source text: backslash 92, caret 94, dollar 36, dot 46,
bar 124, question 63, star 42, plus 43, the parentheses 40 41, the
square brackets 91 93 and the curly braces 123 125.  A pattern built
only from other code points denotes itself literally. -/
def regexSpecial : List Nat := [92, 94, 36, 46, 124, 63, 42, 43, 40, 41, 91, 93, 123, 125]

/-- One element of the fragment of JavaScript regular expressions that
deduplicateBullets can feed to `new RegExp`: a literal code point, or
the dot wildcard. -/
inductive RexItem where
  | lit (c : Nat)
  | dot
deriving DecidableEq, Repr

/-- Model of `new RegExp(pattern, "gi")` construction on the fragment
used here: a dot becomes the wildcard, any other special code point is
treated as a construction failure (for the unmatched-parenthesis
prefixes exercised below this is exactly the SyntaxError that
JavaScript throws), and every other code point matches literally. -/
def buildRex : Str → Option (List RexItem)
  | [] => some []
  | c :: rest =>
      if c = 46 then (buildRex rest).map (fun items => RexItem.dot :: items)
      else if c ∈ regexSpecial then none
      else (buildRex rest).map (fun items => RexItem.lit c :: items)

/-- Case-insensitive comparison of two code points, the canonicalization
the regex i flag performs (ASCII). -/
def codeEqCI (a b : Nat) : Bool := lowerCode a = lowerCode b

/-- Line terminators, which the dot wildcard does not match: LF 10,
CR 13, LS 8232, PS 8233. -/
def isLineTerm (c : Nat) : Bool := c = 10 || c = 13 || c = 8232 || c = 8233

/-- Whether the regex items match a prefix of the text. -/
def rexHere : List RexItem → Str → Bool
  | [], _ => true
  | _ :: _, [] => false
  | RexItem.lit c :: items, x :: xs => codeEqCI c x && rexHere items xs
  | RexItem.dot :: items, x :: xs => !isLineTerm x && rexHere items xs

/-- Whether the regex items match anywhere in the text; with the g flag,
String.prototype.match returns a non-empty array exactly when this
holds. -/
def rexSearch (items : List RexItem) : Str → Bool
  | [] => rexHere items []
  | x :: xs => rexHere items (x :: xs) || rexSearch items xs

/-- Loop of deduplicateBullets over the remaining bullets, carrying the
accepted list.  For each bullet the source asks whether some accepted
string, lower-cased, matches `new RegExp(bullet.substring(0, 10), "gi")`;
when the accepted list is empty the regex is never constructed (the
`some` callback never runs), so an ill-formed prefix throws only when at
least one string has been accepted. -/
def dedupeGo : List Str → List Str → Except Unit (List Str)
  | [], deduped => Except.ok deduped
  | b :: rest, deduped =>
      if deduped.isEmpty then dedupeGo rest (deduped ++ [b])
      else
        match buildRex (b.take 10) with
        | none => Except.error ()
        | some items =>
            if deduped.any (fun ex => rexSearch items (strLower ex)) then
              dedupeGo rest deduped
            else dedupeGo rest (deduped ++ [b])

/-- deduplicateBullets of the source.  The error case models the
SyntaxError that escapes from `new RegExp` on an ill-formed prefix. -/
def deduplicateBullets (bullets : List Str) : Except Unit (List Str) :=
  dedupeGo bullets []

example :
    deduplicateBullets
      [chars "refresh staff training", chars "Refresh Staff Training Program",
       chars "lower prices"] =
    Except.ok [chars "refresh staff training", chars "lower prices"] := by rfl

example : deduplicateBullets [chars "ok", chars "(unmatched!"] = Except.error () := by rfl

example : deduplicateBullets [chars "abc", chars "a.c"] = Except.ok [chars "abc"] := by rfl

theorem lowerCode_idem (c : Nat) : lowerCode (lowerCode c) = lowerCode c := by
  unfold lowerCode
  split_ifs <;> omega

theorem strLower_idem (s : Str) : strLower (strLower s) = strLower s := by
  induction s with
  | nil => rfl
  | cons a as ih =>
      simp only [strLower, List.map_cons, lowerCode_idem] at *
      exact congrArg _ ih

theorem buildRex_lit (p : Str) (h : ∀ c ∈ p, c ∉ regexSpecial) :
    buildRex p = some (p.map RexItem.lit) := by
  induction p with
  | nil => rfl
  | cons c rest ih =>
      have hc : c ∉ regexSpecial := h c (List.mem_cons_self c rest)
      have h46 : ¬ c = 46 := by
        intro hEq
        exact hc (by rw [hEq]; decide)
      have hrest := ih (fun x hx => h x (List.mem_cons_of_mem c hx))
      simp [buildRex, h46, hc, hrest]

theorem rexHere_lit (p : Str) (t : Str) :
    rexHere (p.map RexItem.lit) t = isPfx (strLower p) (strLower t) := by
  induction p generalizing t with
  | nil => cases t <;> rfl
  | cons c cs ih =>
      cases t with
      | nil => rfl
      | cons x xs =>
          simp only [List.map_cons, rexHere, strLower, isPfx, codeEqCI]
          have := ih xs
          simp only [strLower] at this
          rw [this]

theorem rexSearch_lit (p : Str) (t : Str) :
    rexSearch (p.map RexItem.lit) t = isSubstr (strLower p) (strLower t) := by
  induction t with
  | nil =>
      show rexHere (p.map RexItem.lit) [] = isSubstr (strLower p) []
      rw [rexHere_lit]
      rfl
  | cons x xs ih =>
      show (rexHere (p.map RexItem.lit) (x :: xs) || rexSearch (p.map RexItem.lit) xs) = _
      rw [rexHere_lit, ih]
      rfl

/-- The deduplication rule exactly as the claim words it: scan the input
in order; drop a candidate precisely when its first ten characters occur
case-insensitively as a substring of an already accepted string;
otherwise append it.  Spec-side definition, for comparison with
deduplicateBullets. -/
def specDedupeGo : List Str → List Str → List Str
  | [], acc => acc
  | b :: rest, acc =>
      if acc.any (fun ex => isSubstr (strLower (b.take 10)) (strLower ex)) then
        specDedupeGo rest acc
      else specDedupeGo rest (acc ++ [b])

/-- Order-preserving first-occurrence-wins deduplication as the claim
states it. -/
def specDedupe (bullets : List Str) : List Str := specDedupeGo bullets []

theorem listAnyCongr {α : Type} (f g : α → Bool) (l : List α)
    (h : ∀ x ∈ l, f x = g x) : l.any f = l.any g := by
  induction l with
  | nil => rfl
  | cons a as ih =>
      simp only [List.any_cons, h a (List.mem_cons_self a as)]
      rw [ih (fun x hx => h x (List.mem_cons_of_mem a hx))]

theorem dedupeGo_eq_spec (bullets : List Str)
    (h : ∀ b ∈ bullets, ∀ c ∈ b.take 10, c ∉ regexSpecial) (acc : List Str) :
    dedupeGo bullets acc = Except.ok (specDedupeGo bullets acc) := by
  induction bullets generalizing acc with
  | nil => rfl
  | cons b rest ih =>
      have hb : ∀ c ∈ b.take 10, c ∉ regexSpecial := h b (List.mem_cons_self b rest)
      have hrest : ∀ x ∈ rest, ∀ c ∈ x.take 10, c ∉ regexSpecial :=
        fun x hx => h x (List.mem_cons_of_mem b hx)
      by_cases hacc : acc = []
      · subst hacc
        simp only [dedupeGo, specDedupeGo, List.isEmpty_nil, List.any_nil, if_true,
          Bool.false_eq_true, if_false, List.nil_append]
        exact ih hrest [b]
      · have hne : acc.isEmpty = false := by
          cases acc with
          | nil => exact absurd rfl hacc
          | cons a as => rfl
        have hcond : (acc.any fun ex => rexSearch ((b.take 10).map RexItem.lit) (strLower ex)) =
            (acc.any fun ex => isSubstr (strLower (b.take 10)) (strLower ex)) := by
          apply listAnyCongr
          intro ex _
          rw [rexSearch_lit, strLower_idem]
        simp only [dedupeGo, specDedupeGo, hne, Bool.false_eq_true, if_false,
          buildRex_lit (b.take 10) hb, hcond]
        by_cases hdup : (acc.any fun ex => isSubstr (strLower (b.take 10)) (strLower ex)) = true
        · simp only [hdup, if_true]
          exact ih hrest acc
        · simp only [hdup, if_false]
          exact ih hrest (acc ++ [b])

/-- Claim C5 (amended): restricted to inputs none of whose first ten
characters is a regex special character, deduplicateBullets is the
order-preserving, first-occurrence-wins filter dropping a candidate
exactly when its first ten characters occur case-insensitively inside an
already accepted string; and the spec example drops its second string and
keeps the first and third in order. -/
theorem dedupe_substring_characterization :
    (∀ bullets : List Str,
        (∀ b ∈ bullets, ∀ c ∈ b.take 10, c ∉ regexSpecial) →
        deduplicateBullets bullets = Except.ok (specDedupe bullets)) ∧
    deduplicateBullets
        [chars "refresh staff training", chars "Refresh Staff Training Program",
         chars "lower prices"] =
      Except.ok [chars "refresh staff training", chars "lower prices"] :=
  ⟨fun bullets h => dedupeGo_eq_spec bullets h [], by rfl⟩

/-- Witness for C5: the characterization applied to the spec's example
input, whose prefixes contain no regex special character. -/
theorem dedupe_substring_characterization_witness :
    deduplicateBullets
        [chars "refresh staff training", chars "Refresh Staff Training Program",
         chars "lower prices"] =
      Except.ok (specDedupe
        [chars "refresh staff training", chars "Refresh Staff Training Program",
         chars "lower prices"]) :=
  dedupe_substring_characterization.1
    [chars "refresh staff training", chars "Refresh Staff Training Program",
     chars "lower prices"] (by decide)

/-- Counterexample for C5 as stated: the first ten characters of "a.c"
do not occur (case-insensitively) anywhere in the accepted "abc", yet
deduplicateBullets drops "a.c", because the unescaped prefix is compiled
as a regular expression in which the dot matches any character. -/
theorem dedupe_regex_wildcard_cex :
    isSubstr (strLower ((chars "a.c").take 10)) (strLower (chars "abc")) = false ∧
    deduplicateBullets [chars "abc", chars "a.c"] = Except.ok [chars "abc"] :=
  ⟨by decide, by rfl⟩

/-- Claim C10: evaluation of deduplicateBullets at a failing input.  The
second bullet's first ten characters contain an unmatched parenthesis,
so `new RegExp` throws a SyntaxError instead of returning a list: the
deduplicator is not total. -/
theorem dedupe_throws_on_unmatched_paren :
    deduplicateBullets [chars "ok", chars "(unmatched!"] = Except.error () := by rfl

theorem listMapCongr {α β : Type} (f g : α → β) (l : List α)
    (h : ∀ x ∈ l, f x = g x) : l.map f = l.map g := by
  induction l with
  | nil => rfl
  | cons a as ih =>
      simp only [List.map_cons, h a (List.mem_cons_self a as)]
      rw [ih (fun x hx => h x (List.mem_cons_of_mem a hx))]

theorem inferThemeGo_first (lt : Str) (pre post : List (String × List Str))
    (theme : String) (kws : List Str)
    (hpre : ∀ e ∈ pre, e.2.any (fun kw => isSubstr kw lt) = false)
    (hth : kws.any (fun kw => isSubstr kw lt) = true) :
    inferThemeGo (pre ++ (theme, kws) :: post) lt = theme := by
  induction pre with
  | nil => simp [inferThemeGo, hth]
  | cons e rest ih =>
      obtain ⟨name, ks⟩ := e
      have h1 := hpre (name, ks) (List.mem_cons_self _ rest)
      simp only [List.cons_append, inferThemeGo, h1, Bool.false_eq_true, if_false]
      exact ih (fun x hx => hpre x (List.mem_cons_of_mem _ hx))

theorem inferThemeGo_none (lt : Str) (L : List (String × List Str))
    (h : ∀ e ∈ L, e.2.any (fun kw => isSubstr kw lt) = false) :
    inferThemeGo L lt = "Service" := by
  induction L with
  | nil => rfl
  | cons e rest ih =>
      obtain ⟨name, ks⟩ := e
      have h1 := h (name, ks) (List.mem_cons_self _ rest)
      simp only [inferThemeGo, h1, Bool.false_eq_true, if_false]
      exact ih (fun x hx => h x (List.mem_cons_of_mem _ hx))

/-- Claim C6: inferTheme returns the first theme of the fixed ordered
category list one of whose keywords occurs in the lower-cased input;
when no category matches — the empty string included — it returns
"Service", the first category; it is total by construction.  A string
containing "wait" and "clean" and no keyword of an earlier category
classifies to "Speed/Wait Time". -/
theorem inferTheme_first_match :
    (∀ (s : Str) (pre post : List (String × List Str)) (theme : String) (kws : List Str),
        THEME_KEYWORDS = pre ++ (theme, kws) :: post →
        (∀ e ∈ pre, e.2.any (fun kw => isSubstr kw (strLower s)) = false) →
        kws.any (fun kw => isSubstr kw (strLower s)) = true →
        inferTheme s = theme) ∧
    (∀ s : Str,
        (∀ e ∈ THEME_KEYWORDS, e.2.any (fun kw => isSubstr kw (strLower s)) = false) →
        inferTheme s = "Service") ∧
    inferTheme (chars "") = "Service" ∧
    inferTheme (chars "wait clean") = "Speed/Wait Time" :=
  ⟨fun s pre post theme kws hsplit hpre hth => by
      rw [inferTheme, hsplit]
      exact inferThemeGo_first (strLower s) pre post theme kws hpre hth,
   fun s h => inferThemeGo_none (strLower s) THEME_KEYWORDS h,
   by decide, by decide⟩

/-- Witness for C6: the first-match clause applied to "wait clean",
whose Service keywords all fail and whose Speed/Wait Time keyword
"wait" occurs. -/
theorem inferTheme_first_match_witness :
    inferTheme (chars "wait clean") = "Speed/Wait Time" :=
  inferTheme_first_match.1 (chars "wait clean") (THEME_KEYWORDS.take 1)
    (THEME_KEYWORDS.drop 2) "Speed/Wait Time"
    [chars "wait", chars "slow", chars "queue", chars "delay", chars "quick",
     chars "fast", chars "timely"]
    (by decide) (by decide) (by decide)

/-- The claim's successor map on the fixed status cycle
Backlog, InProgress, InReview, Done, wrapping Done to Backlog.
Spec-side definition, for comparison with cycleStatus. -/
def claimNext : Status → Status
  | Status.Backlog => Status.InProgress
  | Status.InProgress => Status.InReview
  | Status.InReview => Status.Done
  | Status.Done => Status.Backlog

theorem cycStep_eq_claimNext (taskId : String) (t : Task) :
    cycStep taskId t =
      if t.id = taskId then { t with status := claimNext t.status } else t := by
  obtain ⟨i, ti, th, im, ef, st, pr, ca, da⟩ := t
  by_cases h : i = taskId
  · cases st <;> simp [cycStep, h, claimNext, statusIdx, statuses]
  · simp [cycStep, h]

theorem cycStep_four (taskId : String) (t : Task) :
    cycStep taskId (cycStep taskId (cycStep taskId (cycStep taskId t))) = t := by
  obtain ⟨i, ti, th, im, ef, st, pr, ca, da⟩ := t
  by_cases h : i = taskId
  · cases st <;> simp [cycStep, h, statusIdx, statuses]
  · simp [cycStep, h]

/-- Claim C8: cycleStatus advances every task with the given id along
the fixed cycle Backlog to InProgress to InReview to Done and wraps
Done back to Backlog (claimNext), leaving all other tasks untouched;
and four consecutive advances restore the whole task list. -/
theorem advanceStatus_cycle :
    (∀ (taskId : String) (tasks : List Task),
        cycleStatus taskId tasks =
          tasks.map (fun t =>
            if t.id = taskId then { t with status := claimNext t.status } else t)) ∧
    (∀ (taskId : String) (tasks : List Task),
        cycleStatus taskId (cycleStatus taskId (cycleStatus taskId
          (cycleStatus taskId tasks))) = tasks) := by
  constructor
  · intro taskId tasks
    exact listMapCongr _ _ tasks (fun t _ => cycStep_eq_claimNext taskId t)
  · intro taskId tasks
    simp only [cycleStatus, List.map_map]
    have h : ∀ t ∈ tasks,
        (cycStep taskId ∘ cycStep taskId ∘ cycStep taskId ∘ cycStep taskId) t = id t :=
      fun t _ => cycStep_four taskId t
    rw [listMapCongr _ _ tasks h, List.map_id]

/-- The clamp function to the inclusive range lo..hi, as the claim
words it.  Spec-side definition, for comparison with updateProgress. -/
def specClamp (x lo hi : Int) : Int := max lo (min hi x)

theorem updStep_bounds (taskId : String) (delta : Int) (t : Task) (h : t.id = taskId) :
    0 ≤ (updStep taskId delta t).progress ∧ (updStep taskId delta t).progress ≤ 100 := by
  simp only [updStep, h, if_true]
  constructor
  · exact le_max_left 0 _
  · have : min 100 (t.progress + delta) ≤ 100 := min_le_left _ _
    omega

/-- Claim C9: updateProgress sets the progress of every task with the
given id to clamp(progress + delta, 0, 100), leaving other tasks
untouched; every adjusted task ends inside 0..100; and from any task
list within bounds, a -1000 adjustment drives the matched tasks to 0
and a following +1000 adjustment drives them to 100. -/
theorem adjustProgress_clamp :
    (∀ (taskId : String) (delta : Int) (tasks : List Task),
        updateProgress taskId delta tasks =
          tasks.map (fun t =>
            if t.id = taskId then { t with progress := specClamp (t.progress + delta) 0 100 }
            else t)) ∧
    (∀ (taskId : String) (delta : Int) (tasks : List Task) (t : Task),
        t ∈ updateProgress taskId delta tasks → t.id = taskId →
        0 ≤ t.progress ∧ t.progress ≤ 100) ∧
    (∀ (taskId : String) (tasks : List Task),
        (∀ t ∈ tasks, 0 ≤ t.progress ∧ t.progress ≤ 100) →
        updateProgress taskId (-1000) tasks =
          tasks.map (fun t => if t.id = taskId then { t with progress := 0 } else t) ∧
        updateProgress taskId 1000 (updateProgress taskId (-1000) tasks) =
          tasks.map (fun t => if t.id = taskId then { t with progress := 100 } else t)) := by
  refine ⟨?_, ?_, ?_⟩
  · intro taskId delta tasks
    apply listMapCongr
    intro t _
    rfl
  · intro taskId delta tasks t ht hid
    rw [updateProgress, List.mem_map] at ht
    obtain ⟨s, _, hst⟩ := ht
    by_cases hs : s.id = taskId
    · rw [← hst]
      exact updStep_bounds taskId delta s hs
    · have : t = s := by rw [← hst]; simp [updStep, hs]
      rw [this] at hid
      exact absurd hid hs
  · intro taskId tasks hb
    constructor
    · apply listMapCongr
      intro t ht
      have := hb t ht
      by_cases h : t.id = taskId
      · simp only [updStep, h, if_true]
        congr 1
        omega
      · simp only [updStep, h, if_false]
    · rw [updateProgress, updateProgress, List.map_map]
      apply listMapCongr
      intro t ht
      have := hb t ht
      by_cases h : t.id = taskId
      · simp only [Function.comp, updStep, h, if_true]
        congr 1
        omega
      · simp only [Function.comp, updStep, h, if_false]

/-- A concrete task used to witness the progress-clamping claim. -/
def c9task : Task :=
  { id := "gen-1", title := chars "lower prices", theme := "Price/Value",
    impact := Level.Low, effort := Level.Med, status := Status.Backlog,
    progress := 80, created_at := some "2026-01-01", due_at := none }

/-- Witness for C9: the clamp bounds and the -1000 / +1000 sequence on
a concrete single-task list with progress 80. -/
theorem adjustProgress_clamp_witness :
    (0 ≤ ({ c9task with progress := 85 } : Task).progress ∧
       ({ c9task with progress := 85 } : Task).progress ≤ 100) ∧
    updateProgress "gen-1" (-1000) [c9task] = [{ c9task with progress := 0 }] ∧
    updateProgress "gen-1" 1000 (updateProgress "gen-1" (-1000) [c9task]) =
      [{ c9task with progress := 100 }] := by
  refine ⟨?_, ?_, ?_⟩
  · exact adjustProgress_clamp.2.1 "gen-1" 5 [c9task]
      ({ c9task with progress := 85 }) (by decide) (by decide)
  · exact (adjustProgress_clamp.2.2 "gen-1" [c9task] (by decide)).1.trans (by decide)
  · exact (adjustProgress_clamp.2.2 "gen-1" [c9task] (by decide)).2.trans (by decide)

/-- A concrete task used to exercise the unknown-id lifecycle paths. -/
def c7task : Task :=
  { id := "gen-1", title := chars "improve wait times", theme := "Speed/Wait Time",
    impact := Level.High, effort := Level.Med, status := Status.InProgress,
    progress := 40, created_at := some "2026-01-01", due_at := none }

/-- Claim C7: evaluation at the failing input.  Called with a taskId
that no task carries, cycleStatus and updateProgress return the task
list unchanged; their result type is a plain task list, so no NotFound
error of any kind reaches the caller — the operation is a silent no-op,
not a reported error. -/
theorem lifecycle_unknown_id_silent_noop :
    cycleStatus "ghost" [c7task] = [c7task] ∧
    updateProgress "ghost" 25 [c7task] = [c7task] :=
  ⟨by decide, by decide⟩

theorem synthesize_nil (now : String) (recs imps : List Str) :
    synthesize now recs imps [] = generatedTasks now recs imps := by
  rw [synthesize]
  have h : ∀ g ∈ generatedTasks now recs imps,
      (match ([] : List Task).find? (fun st => st.title = g.title) with
       | some st => mergeTask g st
       | none => g) = id g := fun g _ => rfl
  rw [listMapCongr _ _ _ h, List.map_id]

theorem genRecTasks_titles (now : String) (n : Nat) (rs : List Str) :
    (genRecTasks now n rs).map (fun t => t.title) = rs := by
  induction rs generalizing n with
  | nil => rfl
  | cons r rest ih => simp only [genRecTasks, List.map_cons, ih, mkCandidate]

theorem genImpTasks_titles (now : String) (n : Nat) (is : List Str) :
    (genImpTasks now n is).map (fun t => t.title) = is.map imperative := by
  induction is generalizing n with
  | nil => rfl
  | cons s rest ih => simp only [genImpTasks, List.map_cons, ih, mkCandidate]

theorem generatedTasks_titles (now : String) (recs imps : List Str) :
    (generatedTasks now recs imps).map (fun t => t.title) =
      recs.take 3 ++ (imps.take 3).map imperative := by
  rw [generatedTasks, List.map_append, genRecTasks_titles, genImpTasks_titles]

/-- Claim C2 (amended): synthesize performs no deduplication at all —
deduplicateBullets is applied only to the displayed insight bullets,
never to the generated tasks — so the returned titles are exactly the
capped recommendation strings followed by the imperative forms of the
capped improvement strings, in order, duplicates included. -/
theorem synthesize_no_dedup (now : String) (recs imps : List Str) (priors : List Task) :
    (synthesize now recs imps priors).map (fun t => t.title) =
      recs.take 3 ++ (imps.take 3).map imperative := by
  rw [synthesize, List.map_map]
  have h : ∀ g ∈ generatedTasks now recs imps,
      ((fun t => t.title) ∘ fun g =>
        (match priors.find? (fun st => st.title = g.title) with
         | some st => mergeTask g st
         | none => g)) g = (fun t => t.title) g := by
    intro g _
    simp only [Function.comp]
    cases hf : priors.find? (fun st => st.title = g.title) with
    | none => rfl
    | some st =>
        have := List.find?_some hf
        have hts : st.title = g.title := of_decide_eq_true this
        exact hts
  rw [listMapCongr _ _ _ h, generatedTasks_titles]

/-- Counterexample for C2 as stated: two identical recommendation
strings both survive synthesis; the output holds two
recommendation-derived tasks (the only group, the improvements list
being empty) with the same title, whose ten-character prefix trivially
occurs in the other title. -/
theorem synthesize_duplicate_titles_cex :
    (synthesize "t0" [chars "lower prices", chars "lower prices"] [] []).map
        (fun t => t.title) =
      [chars "lower prices", chars "lower prices"] ∧
    isSubstr (strLower ((chars "lower prices").take 10))
        (strLower (chars "lower prices")) = true :=
  ⟨by decide, by decide⟩

theorem genRecTasks_impacts (now : String) (n : Nat) (rs : List Str) :
    (genRecTasks now n rs).map (fun t => t.impact) =
      List.replicate rs.length Level.Low := by
  induction rs generalizing n with
  | nil => rfl
  | cons r rest ih =>
      simp only [genRecTasks, List.map_cons, ih, mkCandidate, List.length_cons,
        List.replicate_succ]
      have h1 : calculateImpact none none none = Level.Low := by decide
      rw [h1]

theorem genImpTasks_impacts (now : String) (n : Nat) (is : List Str) :
    (genImpTasks now n is).map (fun t => t.impact) =
      List.replicate is.length Level.High := by
  induction is generalizing n with
  | nil => rfl
  | cons s rest ih =>
      simp only [genImpTasks, List.map_cons, ih, mkCandidate, List.length_cons,
        List.replicate_succ]
      have h1 : calculateImpact none none (some "improve") = Level.High := by decide
      rw [h1]

/-- Claim C4 (amended): with no prior tasks to reconcile against, every
recommendation-derived task has impact Low (calculateImpact is called
with all arguments absent, so every rule fails and the default applies)
and every improvement-derived task has impact High (the origin rule
fires first). -/
theorem synthesize_impacts_by_origin (now : String) (recs imps : List Str) :
    (synthesize now recs imps []).map (fun t => t.impact) =
      List.replicate (recs.take 3).length Level.Low ++
        List.replicate (imps.take 3).length Level.High := by
  rw [synthesize_nil, generatedTasks, List.map_append, genRecTasks_impacts,
    genImpTasks_impacts]

/-- A saved task sharing the title of a fresh recommendation candidate
but carrying a High stored impact. -/
def c4prior : Task :=
  { id := "prior-1", title := chars "lower prices", theme := "Staff Behavior",
    impact := Level.High, effort := Level.High, status := Status.Done,
    progress := 80, created_at := some "2026-01-01", due_at := none }

/-- Counterexample for C4 as stated: with a prior task of the same
title, the reconciled recommendation-derived task keeps the prior's
stored High impact rather than the freshly computed Low. -/
theorem synthesize_prior_impact_cex :
    (synthesize "t0" [chars "lower prices"] [] [c4prior]).map (fun t => t.impact) =
      [Level.High] ∧
    Level.High ≠ Level.Low :=
  ⟨by decide, by decide⟩

theorem listGetDMap {α β : Type} (f : α → β) (l : List α) (i : Nat) (d : β) (d2 : α)
    (h : i < l.length) : (l.map f).getD i d = f (l.getD i d2) := by
  induction l generalizing i with
  | nil => simp at h
  | cons a as ih =>
      cases i with
      | zero => rfl
      | succ j => exact ih j (by simpa using h)

theorem listFindFirst {α : Type} (p : α → Bool) (pre post : List α) (a : α)
    (hpre : ∀ x ∈ pre, p x = false) (ha : p a = true) :
    (pre ++ a :: post).find? p = some a := by
  induction pre with
  | nil => simpa using List.find?_cons_of_pos post ha
  | cons b rest ih =>
      have hb := hpre b (List.mem_cons_self b rest)
      simp only [List.cons_append]
      rw [List.find?_cons_of_neg _ (by simp [hb])]
      exact ih (fun x hx => hpre x (List.mem_cons_of_mem b hx))

/-- A default task, only used as the out-of-range fallback of List.getD
in positional statements; every statement below bounds the index, so the
fallback is never reached. -/
def blankTask : Task :=
  { id := "", title := [], theme := "", impact := Level.Low, effort := Level.Low,
    status := Status.Backlog, progress := 0, created_at := none, due_at := none }

/-- Claim C1 (amended): when the first prior task with a title identical
to the i-th fresh candidate's exists, the i-th reconciled task keeps the
prior task's id, status and progress AND the prior task's stored theme,
impact and effort — the saved record overrides every field of the
candidate, so the freshly computed classification is discarded; when no
prior title matches, the fresh candidate is returned unchanged. -/
theorem synthesize_merge_keeps_saved_fields :
    (∀ (now : String) (recs imps : List Str) (priors : List Task) (i : Nat)
        (pre post : List Task) (p : Task),
        i < (generatedTasks now recs imps).length →
        priors = pre ++ p :: post →
        (∀ q ∈ pre, q.title ≠ ((generatedTasks now recs imps).getD i blankTask).title) →
        p.title = ((generatedTasks now recs imps).getD i blankTask).title →
        ((synthesize now recs imps priors).getD i blankTask).id = p.id ∧
        ((synthesize now recs imps priors).getD i blankTask).status = p.status ∧
        ((synthesize now recs imps priors).getD i blankTask).progress = p.progress ∧
        ((synthesize now recs imps priors).getD i blankTask).theme = p.theme ∧
        ((synthesize now recs imps priors).getD i blankTask).impact = p.impact ∧
        ((synthesize now recs imps priors).getD i blankTask).effort = p.effort) ∧
    (∀ (now : String) (recs imps : List Str) (priors : List Task) (i : Nat),
        i < (generatedTasks now recs imps).length →
        (∀ q ∈ priors, q.title ≠ ((generatedTasks now recs imps).getD i blankTask).title) →
        (synthesize now recs imps priors).getD i blankTask =
          (generatedTasks now recs imps).getD i blankTask) := by
  constructor
  · intro now recs imps priors i pre post p hi hsplit hpre hp
    have hout : (synthesize now recs imps priors).getD i blankTask =
        (match priors.find? (fun st =>
            st.title = ((generatedTasks now recs imps).getD i blankTask).title) with
         | some st => mergeTask ((generatedTasks now recs imps).getD i blankTask) st
         | none => (generatedTasks now recs imps).getD i blankTask) := by
      rw [synthesize]
      exact listGetDMap _ _ i blankTask blankTask hi
    have hfind : priors.find? (fun st =>
        st.title = ((generatedTasks now recs imps).getD i blankTask).title) = some p := by
      rw [hsplit]
      exact listFindFirst _ pre post p
        (fun q hq => decide_eq_false (hpre q hq)) (decide_eq_true hp)
    rw [hout, hfind]
    exact ⟨rfl, rfl, rfl, rfl, rfl, rfl⟩
  · intro now recs imps priors i hi hnone
    have hout : (synthesize now recs imps priors).getD i blankTask =
        (match priors.find? (fun st =>
            st.title = ((generatedTasks now recs imps).getD i blankTask).title) with
         | some st => mergeTask ((generatedTasks now recs imps).getD i blankTask) st
         | none => (generatedTasks now recs imps).getD i blankTask) := by
      rw [synthesize]
      exact listGetDMap _ _ i blankTask blankTask hi
    have hfind : priors.find? (fun st =>
        st.title = ((generatedTasks now recs imps).getD i blankTask).title) = none :=
      List.find?_eq_none.mpr (fun q hq => by simpa using hnone q hq)
    rw [hout, hfind]

/-- A saved task sharing a fresh recommendation candidate's title while
every one of its merge-relevant fields differs from the fresh values. -/
def c1prior : Task :=
  { id := "prior-1", title := chars "lower prices", theme := "Staff Behavior",
    impact := Level.High, effort := Level.High, status := Status.Done,
    progress := 80, created_at := some "2026-01-01", due_at := none }

/-- Witness for C1: reconciling the candidate "lower prices" against the
prior task of the same title keeps every saved field of the prior. -/
theorem synthesize_merge_keeps_saved_fields_witness :
    ((synthesize "t0" [chars "lower prices"] [] [c1prior]).getD 0 blankTask).id =
        c1prior.id ∧
    ((synthesize "t0" [chars "lower prices"] [] [c1prior]).getD 0 blankTask).status =
        c1prior.status ∧
    ((synthesize "t0" [chars "lower prices"] [] [c1prior]).getD 0 blankTask).progress =
        c1prior.progress ∧
    ((synthesize "t0" [chars "lower prices"] [] [c1prior]).getD 0 blankTask).theme =
        c1prior.theme ∧
    ((synthesize "t0" [chars "lower prices"] [] [c1prior]).getD 0 blankTask).impact =
        c1prior.impact ∧
    ((synthesize "t0" [chars "lower prices"] [] [c1prior]).getD 0 blankTask).effort =
        c1prior.effort :=
  synthesize_merge_keeps_saved_fields.1 "t0" [chars "lower prices"] [] [c1prior] 0
    [] [] c1prior (by decide) rfl (by decide) (by decide)

/-- Counterexample for C1 as stated: the reconciled task carries the
prior task's stored theme, impact and effort, while the freshly
computed values for the same title are different — the claim's
"freshly computed values win" direction fails. -/
theorem synthesize_merge_fresh_values_cex :
    (synthesize "t0" [chars "lower prices"] [] [c1prior]).map (fun t => t.impact) =
        [Level.High] ∧
    calculateImpact none none none = Level.Low ∧
    (synthesize "t0" [chars "lower prices"] [] [c1prior]).map (fun t => t.theme) =
        ["Staff Behavior"] ∧
    inferTheme (chars "lower prices") = "Price/Value" ∧
    (synthesize "t0" [chars "lower prices"] [] [c1prior]).map (fun t => t.effort) =
        [Level.High] ∧
    calculateEffort (chars "lower prices") = Level.Med :=
  ⟨by decide, by decide, by decide, by decide, by decide, by decide⟩

theorem genRecTasks_fields (now : String) (n : Nat) (rs : List Str) :
    ∀ t ∈ genRecTasks now n rs, t.created_at = some now ∧ t.due_at = none := by
  induction rs generalizing n with
  | nil => intro t ht; simp [genRecTasks] at ht
  | cons r rest ih =>
      intro t ht
      rcases List.mem_cons.mp ht with h | h
      · subst h; exact ⟨rfl, rfl⟩
      · exact ih (n + 1) t h

theorem genImpTasks_fields (now : String) (n : Nat) (is : List Str) :
    ∀ t ∈ genImpTasks now n is, t.created_at = some now ∧ t.due_at = none := by
  induction is generalizing n with
  | nil => intro t ht; simp [genImpTasks] at ht
  | cons s rest ih =>
      intro t ht
      rcases List.mem_cons.mp ht with h | h
      · subst h; exact ⟨rfl, rfl⟩
      · exact ih (n + 1) t h

theorem generatedTasks_fields (now : String) (recs imps : List Str) :
    ∀ t ∈ generatedTasks now recs imps, t.created_at = some now ∧ t.due_at = none := by
  intro t ht
  rcases List.mem_append.mp ht with h | h
  · exact genRecTasks_fields now 1 (recs.take 3) t h
  · exact genImpTasks_fields now (1 + (recs.take 3).length) (imps.take 3) t h

theorem mergeTask_eq (g p : Task) (c : String) (hp : p.created_at = some c)
    (hg : g.due_at = none) : mergeTask g p = p := by
  obtain ⟨i, ti, th, im, ef, st, pr, ca, da⟩ := p
  simp only at hp
  subst hp
  cases da <;> simp [mergeTask, hg]

theorem listFindSelf (l : List Task) (hnd : (l.map (fun t => t.title)).Nodup)
    (i : Nat) (hi : i < l.length) :
    l.find? (fun st => st.title = (l.get ⟨i, hi⟩).title) = some (l.get ⟨i, hi⟩) := by
  induction l generalizing i with
  | nil => simp at hi
  | cons a as ih =>
      cases i with
      | zero => exact List.find?_cons_of_pos as (by simp)
      | succ j =>
          have hj : j < as.length := by simpa using hi
          have hpair : (∀ x ∈ as, ¬ x.title = a.title) ∧
              (as.map (fun t => t.title)).Nodup := by simpa using hnd
          have hmem : as.get ⟨j, hj⟩ ∈ as := List.get_mem as j hj
          have hne : ¬ a.title = (as.get ⟨j, hj⟩).title :=
            fun he => hpair.1 _ hmem he.symm
          have hget : (a :: as).get ⟨j + 1, hi⟩ = as.get ⟨j, hj⟩ := rfl
          rw [hget, List.find?_cons_of_neg _ (by simpa using hne)]
          exact ih hpair.2 j hj

/-- Claim C3 (amended): when the generated candidate titles are pairwise
distinct, re-running synthesis with the first run's output as the prior
task set returns the first run's output exactly — every id, status,
progress, title, theme, impact and effort preserved verbatim.  (Distinct
titles are required: duplicate candidate titles all reconcile to the
first matching saved task.) -/
theorem synthesize_idempotent (now1 now2 : String) (recs imps : List Str)
    (h : ((generatedTasks now1 recs imps).map (fun t => t.title)).Nodup) :
    synthesize now2 recs imps (synthesize now1 recs imps []) =
      synthesize now1 recs imps [] := by
  rw [synthesize_nil]
  have hmt : (generatedTasks now2 recs imps).map (fun t => t.title) =
      (generatedTasks now1 recs imps).map (fun t => t.title) :=
    (generatedTasks_titles now2 recs imps).trans
      (generatedTasks_titles now1 recs imps).symm
  have hlen : (generatedTasks now2 recs imps).length =
      (generatedTasks now1 recs imps).length := by
    have := congrArg List.length hmt
    simpa using this
  rw [synthesize]
  apply List.ext_get (by simpa using hlen)
  intro n h1 h2
  have hn2 : n < (generatedTasks now2 recs imps).length := by simpa using h1
  have htitle : ((generatedTasks now2 recs imps).get ⟨n, hn2⟩).title =
      ((generatedTasks now1 recs imps).get ⟨n, h2⟩).title := by
    have e1 : ((generatedTasks now2 recs imps).map (fun t => t.title)).get
        ⟨n, by simpa using hn2⟩ = ((generatedTasks now2 recs imps).get ⟨n, hn2⟩).title := by
      simp
    have e2 : ((generatedTasks now1 recs imps).map (fun t => t.title)).get
        ⟨n, by simpa using h2⟩ = ((generatedTasks now1 recs imps).get ⟨n, h2⟩).title := by
      simp
    rw [← e1, ← e2]
    exact List.get_of_eq hmt _
  have hfind : (generatedTasks now1 recs imps).find? (fun st =>
      st.title = ((generatedTasks now2 recs imps).get ⟨n, hn2⟩).title) =
      some ((generatedTasks now1 recs imps).get ⟨n, h2⟩) := by
    rw [htitle]
    exact listFindSelf (generatedTasks now1 recs imps) h n h2
  have hget : (((generatedTasks now2 recs imps).map (fun g =>
      match (generatedTasks now1 recs imps).find? (fun st => st.title = g.title) with
      | some st => mergeTask g st
      | none => g)).get ⟨n, h1⟩) =
      (match (generatedTasks now1 recs imps).find? (fun st =>
          st.title = ((generatedTasks now2 recs imps).get ⟨n, hn2⟩).title) with
       | some st => mergeTask ((generatedTasks now2 recs imps).get ⟨n, hn2⟩) st
       | none => (generatedTasks now2 recs imps).get ⟨n, hn2⟩) := by
    simp
  rw [hget, hfind]
  exact mergeTask_eq _ _ now1
    ((generatedTasks_fields now1 recs imps _
      (List.get_mem (generatedTasks now1 recs imps) n h2)).1)
    ((generatedTasks_fields now2 recs imps _
      (List.get_mem (generatedTasks now2 recs imps) n hn2)).2)

/-- Witness for C3: two input lists whose generated titles are distinct;
the second synthesis run reproduces the first run's output exactly. -/
theorem synthesize_idempotent_witness :
    synthesize "t2" [chars "lower prices"] [chars "wait times"]
        (synthesize "t1" [chars "lower prices"] [chars "wait times"] []) =
      synthesize "t1" [chars "lower prices"] [chars "wait times"] [] :=
  synthesize_idempotent "t1" "t2" [chars "lower prices"] [chars "wait times"]
    (by decide)

/-- Counterexample for C3 as stated: the recommendation "Improve staff"
and the improvement "staff" generate two tasks with the same title, so
in the second run both candidates reconcile to the first run's first
task and the second run's impacts (Low, Low) differ from the first
run's (Low, High). -/
theorem synthesize_idempotent_cex :
    (synthesize "t2" [chars "Improve staff"] [chars "staff"]
        (synthesize "t1" [chars "Improve staff"] [chars "staff"] [])).map
        (fun t => t.impact) = [Level.Low, Level.Low] ∧
    (synthesize "t1" [chars "Improve staff"] [chars "staff"] []).map
        (fun t => t.impact) = [Level.Low, Level.High] ∧
    (synthesize "t2" [chars "Improve staff"] [chars "staff"]
        (synthesize "t1" [chars "Improve staff"] [chars "staff"] [])).map
        (fun t => t.id) = ["gen-1", "gen-1"] ∧
    (synthesize "t1" [chars "Improve staff"] [chars "staff"] []).map
        (fun t => t.id) = ["gen-1", "gen-2"] :=
  ⟨by decide, by decide, by decide, by decide⟩

end BizVista
